import Mathlib

/-
Verification development for the mineflayer-rl repository.

Shallow embedding of the core components over exact rationals:
the tabular Q-learning module (src/qlearning.js), the knowledge-merge
operation (src/parallel-bots.js, identical in the multi-bot trainer),
and the RL bridge server (src/rl_bridge_server.js).

Numbers are modelled as rationals. Angles are measured in degrees: this
is the image of the source's radian values under the linear rescale
that maps pi to 180; every comparison, constant and arithmetic step of
the source (thresholds pi/4 and 3*pi/4, the +-2*pi normalization loop)
commutes with that rescale, so the embedding is faithful. The value of
Math.atan2(dz, dx), a transcendental function of the world geometry, is
taken as an explicit parameter (angleToLog) wherever the source calls it.
-/

namespace RLSpec

/-- Information about the closest log block carried inside an Observation,
as built by RLBridgeServer.getObservation (fields x, y, z, distance). -/
structure LogInfo where
  x : ℚ
  y : ℚ
  z : ℚ
  distance : ℚ
  deriving DecidableEq

/-- Observation record, as built by RLBridgeServer.getObservation:
position, yaw, pitch, inventory log count, tree visibility and the
closest-log info (absent when no log is nearby). -/
structure Observation where
  posX : ℚ
  posY : ℚ
  posZ : ℚ
  yaw : ℚ
  pitch : ℚ
  inventory_logs : ℕ
  tree_visible : Bool
  closest_log : Option LogInfo
  deriving DecidableEq

/-- A Q-table: JavaScript object mapping state-key strings to action-value
arrays, modelled as a finitely-supported-in-practice function into
optional rational vectors (absent key = none). -/
def QTable : Type := String → Option (List ℚ)

/-- The empty Q-table, corresponding to the object literal in QAgent's
constructor. -/
def emptyTable : QTable := fun _ => none

/-- Materialization step shared by chooseAction and updateQTable:
if the key is absent, store a zero vector of length n
(Array(this.actions_count).fill(0)); otherwise leave the table alone. -/
def materializeKey (t : QTable) (s : String) (n : ℕ) : QTable :=
  match t s with
  | some _ => t
  | none => fun k => if k = s then some (List.replicate n 0) else t k

/-- Math.max applied to a spread nonempty list, as in
Math.max(...this.q_table[key]); the empty case is unreachable in the
source (vectors have length actions_count). -/
def listMax : List ℚ → ℚ
  | [] => 0
  | x :: xs => xs.foldl max x

/-- The QAgent state from src/qlearning.js: exploration rate, learning
rate, discount factor, Q-table and action count. -/
structure QAgent where
  epsilon : ℚ
  learning_rate : ℚ
  discount_factor : ℚ
  q_table : QTable
  actions_count : ℕ

/-- First normalization loop of QAgent.getStateKey, in degrees:
while (relativeAngle > 180) relativeAngle -= 360. -/
def normUp (a : ℚ) : ℚ :=
  if h : 180 < a then normUp (a - 360) else a
termination_by (⌈(a - 180) / 360⌉).toNat
decreasing_by
  have h1 : (0:ℚ) < (a - 180) / 360 := div_pos (by linarith) (by norm_num)
  have h2 : ((a - 360 - 180) : ℚ) / 360 = (a - 180) / 360 - 1 := by ring
  have h3 : ⌈((a - 360 - 180) : ℚ) / 360⌉ = ⌈(a - 180) / 360⌉ - 1 := by
    rw [h2, Int.ceil_sub_one]
  have h4 : 0 < ⌈(a - 180) / 360⌉ := Int.ceil_pos.mpr h1
  simp only [h3]
  omega

/-- Second normalization loop of QAgent.getStateKey, in degrees:
while (relativeAngle < -180) relativeAngle += 360. -/
def normDown (a : ℚ) : ℚ :=
  if h : a < -180 then normDown (a + 360) else a
termination_by (⌈(-180 - a) / 360⌉).toNat
decreasing_by
  have h1 : (0:ℚ) < (-180 - a) / 360 := div_pos (by linarith) (by norm_num)
  have h2 : ((-180 - (a + 360)) : ℚ) / 360 = (-180 - a) / 360 - 1 := by ring
  have h3 : ⌈((-180 - (a + 360)) : ℚ) / 360⌉ = ⌈(-180 - a) / 360⌉ - 1 := by
    rw [h2, Int.ceil_sub_one]
  have h4 : 0 < ⌈(-180 - a) / 360⌉ := Int.ceil_pos.mpr h1
  simp only [h3]
  omega

/-- Normalization of a relative angle to the -180..180 band, as performed
by the two while loops in QAgent.getStateKey. -/
def normalizeAngle (a : ℚ) : ℚ := normDown (normUp a)

/-- Direction categorization of QAgent.getStateKey over the normalized
relative angle, in degrees (source thresholds pi/4 = 45 and
3*pi/4 = 135). -/
def directionOf (rel : ℚ) : String :=
  if -45 < rel ∧ rel < 45 then "front"
  else if 45 ≤ rel ∧ rel < 135 then "right"
  else if rel ≤ -45 ∧ -135 < rel then "left"
  else "behind"

/-- QAgent.getStateKey. The parameter angleToLog stands for the source's
Math.atan2(logPosition.z - botPosition.z, logPosition.x - botPosition.x),
rescaled to degrees. -/
def getStateKey (o : Observation) (angleToLog : ℚ) : String :=
  match o.tree_visible, o.closest_log with
  | true, some lg =>
    let distanceBucket : String :=
      if lg.distance < 3 then "close"
      else if lg.distance < 6 then "medium"
      else "far"
    let relativeAngle := normalizeAngle (angleToLog - o.yaw)
    "log_visible_" ++ distanceBucket ++ "_" ++ directionOf relativeAngle
  | true, none => "log_visible_none_none"
  | false, _ => "log_none_none_none"

/-- QAgent.chooseAction. The parameter u stands for the first
Math.random() draw, u2 for the second one (used only on the exploration
branch, where the source returns Math.floor(u2 * actions_count));
angleToLog parametrizes the atan2 call inside getStateKey. -/
def chooseAction (ag : QAgent) (u u2 : ℚ) (o : Observation) (angleToLog : ℚ) :
    ℕ × QAgent :=
  if u < ag.epsilon then
    ((⌊u2 * (ag.actions_count : ℚ)⌋).toNat, ag)
  else
    let sk := getStateKey o angleToLog
    let t := materializeKey ag.q_table sk ag.actions_count
    let v := (t sk).getD []
    (v.indexOf (listMax v), { ag with q_table := t })

/-- The first two statements of QAgent.updateQTable: materialize the
vector of the state key, then of the next-state key. -/
def materializedPair (t : QTable) (s ns : String) (n : ℕ) : QTable :=
  materializeKey (materializeKey t s n) ns n

/-- QAgent.updateQTable: materialize both state keys, then apply the
Q-learning update at (stateKey, action). -/
def updateQTable (ag : QAgent) (s : String) (a : ℕ) (r : ℚ) (ns : String) :
    QAgent :=
  let t2 := materializedPair ag.q_table s ns ag.actions_count
  let vs := (t2 s).getD []
  let oldValue := vs.getD a 0
  let nextMax := listMax ((t2 ns).getD [])
  let newValue :=
    oldValue + ag.learning_rate * (r + ag.discount_factor * nextMax - oldValue)
  { ag with q_table := fun k => if k = s then some (vs.set a newValue) else t2 k }

/-- QAgent.decayEpsilon: epsilon becomes max(minEpsilon, epsilon * decayRate). -/
def decayEpsilon (ag : QAgent) (minEpsilon decayRate : ℚ) : QAgent :=
  { ag with epsilon := max minEpsilon (ag.epsilon * decayRate) }

/-- Elementwise maximum step of shareKnowledge: fold one agent table into
the accumulated merged table. For each state present in t, the merged
entry starts from the existing merged vector (or a fresh Array(5).fill(0))
and takes the elementwise maximum with the agent's vector. -/
def mergeInto (acc t : QTable) : QTable := fun s =>
  match t s with
  | none => acc s
  | some v => some (List.zipWith max ((acc s).getD (List.replicate 5 0)) v)

/-- The merged Q-table computed by ParallelBotTraining.shareKnowledge
(identical code in MultiBotTraining.shareKnowledge): fold every agent
table into an initially empty object. -/
def mergeTables (ts : List QTable) : QTable :=
  ts.foldl mergeInto emptyTable

/-- ParallelBotTraining.shareKnowledge as a whole: with at most one bot
it returns immediately; otherwise every bot's table is replaced by a
deep copy of the merged table (value semantics). -/
def shareKnowledge (ts : List QTable) : List QTable :=
  if ts.length ≤ 1 then ts
  else ts.map (fun _ => mergeTables ts)

/-- Well-formedness of a Q-table in the training drivers: every stored
vector has length 5 (the drivers build agents with the default
actions_count = 5 and shareKnowledge hard-codes Array(5)). -/
def WFTable (t : QTable) : Prop :=
  ∀ s v, t s = some v → v.length = 5

/-- Convenience accessor: the value at slot a of the vector stored at key
s, with an absent key read through the same Array(5).fill(0) default that
shareKnowledge materializes. -/
def slotD (t : QTable) (s : String) (a : ℕ) : ℚ :=
  ((t s).getD (List.replicate 5 0)).getD a 0

/-! Bridge server (src/rl_bridge_server.js). -/

/-- Outcome of running one World Interface primitive: it resolves with a
boolean success flag (every primitive in src/bot_actions.js resolves
with a boolean) or it raises during execution. -/
inductive PrimOutcome
  | ok (success : Bool)
  | raises
  deriving DecidableEq

/-- Result of RLBridgeServer.executeAction, together with bookkeeping the
claims talk about: the reward, the done flag, whether a World Interface
primitive was actually invoked, and the session's new cached state. -/
structure ExecResult where
  reward : ℚ
  done : Bool
  invoked : Bool
  newState : Option Observation
  deriving DecidableEq

/-- RLBridgeServer.executeAction. The action index arrives as an
arbitrary JSON number, modelled as a rational. The range check is
numeric (actionIndex >= 0 && actionIndex < actionFunctions.length); a
non-integer index inside the range passes it, but the array lookup
actionFunctions[actionIndex] then yields undefined and invoking it
throws a TypeError that the surrounding try/catch converts into the
-0.5 penalty without any primitive having run. The parameter outcome
stands for the invoked primitive's behaviour; fresh stands for what
getObservation returns after the action (null when unavailable), cur is
the cached state. The not-ready guard (missing bot, actions or mcData)
returns reward -1 with done = true. -/
def executeAction (ready : Bool) (idx : ℚ) (outcome : PrimOutcome)
    (cur fresh : Option Observation) : ExecResult :=
  if !ready then
    { reward := -1, done := true, invoked := false, newState := cur }
  else
    let rewardInvoked : ℚ × Bool :=
      if 0 ≤ idx ∧ idx < 5 then
        if idx.isInt then
          match outcome with
          | .ok success =>
            (if idx = 4 ∧ success = true then 1
             else if idx = 4 ∧ success = false then -(1/10)
             else -(1/100), true)
          | .raises => (-(1/2), true)
        else (-(1/2), false)
      else (-(1/5), false)
    { reward := rewardInvoked.1, done := false, invoked := rewardInvoked.2,
      newState := if fresh.isSome then fresh else cur }

/-- The default observation literal that the message loop substitutes
when no cached or fresh observation is available. -/
def defaultObservation : Observation :=
  { posX := 0, posY := 0, posZ := 0, yaw := 0, pitch := 0,
    inventory_logs := 0, tree_visible := false, closest_log := none }

/-- Inbound commands dispatched by RLBridgeServer.startMessageLoop (the
batch_actions branch iterates take_action and is not needed by any
claim). take_action carries the JSON action number. -/
inductive Command
  | get_state
  | take_action (action : ℚ)
  | reset
  | close
  | unknown (tag : String)

/-- Per-session state visible to one message-loop iteration: the
readiness conjunction (bot && bot.entity && actions && bot.mcData), the
cached observation, what getObservation would currently return (fresh),
and the connected flag. -/
structure SessionState where
  ready : Bool
  currentState : Option Observation
  fresh : Option Observation
  connected : Bool
  deriving DecidableEq

/-- Wire response record: status plus the optional fields the loop sets
on each branch. -/
structure Response where
  status : String
  state : Option Observation
  reward : Option ℚ
  next_state : Option Observation
  done : Option Bool
  message : Option String
  deriving DecidableEq

/-- A response that only carries a status, like the literal
let response = { status: ok } the loop starts from. -/
def baseResponse (st : String) : Response :=
  { status := st, state := none, reward := none, next_state := none,
    done := none, message := none }

/-- One dispatch iteration of RLBridgeServer.startMessageLoop, given the
parsed command. If the readiness check fails every command is answered
with an error response. On get_state the state field is
currentState || getObservation() || default. On take_action the server
runs executeAction (outcome parametrizes the primitive) and answers with
reward, next_state = currentState || default, done. On reset it runs
resetBot (resetOk = false means findAndFaceNearestTree threw, skipping
the cache refresh) and answers with the refreshed state. On close it
flips connected and acknowledges. Unknown tags get an error response. -/
def handleCommand (st : SessionState) (cmd : Command) (outcome : PrimOutcome)
    (resetOk : Bool) : Response × SessionState :=
  if !st.ready then
    ({ baseResponse "error" with message := some "Bot not fully initialized" }, st)
  else
    match cmd with
    | .get_state =>
      ({ baseResponse "ok" with
          state := some (((st.currentState).orElse (fun _ => st.fresh)).getD
            defaultObservation) }, st)
    | .take_action a =>
      let res := executeAction true a outcome st.currentState st.fresh
      ({ baseResponse "ok" with
          reward := some res.reward,
          next_state := some (res.newState.getD defaultObservation),
          done := some res.done },
        { st with currentState := res.newState })
    | .reset =>
      let newCur :=
        if resetOk ∧ st.fresh.isSome then st.fresh else st.currentState
      ({ baseResponse "ok" with
          state := some (newCur.getD defaultObservation) },
        { st with currentState := newCur })
    | .close =>
      ({ baseResponse "ok" with message := some "Closing down" },
        { st with connected := false })
    | .unknown tag =>
      ({ baseResponse "error" with
          message := some ("Unknown request type: " ++ tag) }, st)

/-! Session Manager: initialization and shutdown
(RLBridgeServer.init, cleanupBot, shutdown). -/

/-- Outcome of one initializeBot call: either the bot spawns, registers
and starts its loop, or initialization fails (spawn timeout, disconnect,
connection error, missing version), in which case initializeBot cleans
its partial resources and rethrows the error. -/
inductive InitOutcome
  | success
  | failure (err : String)
  deriving DecidableEq

/-- Bot ids registered in the server map by the successful initializeBot
calls (bot_i for each successful index i). -/
def registeredBots (outcomes : List InitOutcome) : List String :=
  (outcomes.enum).filterMap fun p =>
    match p.2 with
    | .success => some ("bot_" ++ toString p.1)
    | .failure _ => none

/-- First error among the outcomes, modelling the rejection that
Promise.all propagates when any initializeBot rejects. -/
def firstFailure : List InitOutcome → Option String
  | [] => none
  | .success :: rest => firstFailure rest
  | .failure e :: _ => some e

/-- RLBridgeServer.init: awaits Promise.all over all initializeBot
calls. If any of them rejects, the catch block shuts the server down
(cleaning every registered bot) and rethrows that error; only when all
succeed does init check for an empty map and return. The result is the
list of usable bot ids, or the propagated error. -/
def init (outcomes : List InitOutcome) : Except String (List String) :=
  match firstFailure outcomes with
  | some e => Except.error e
  | none =>
    if (registeredBots outcomes).length = 0 then
      Except.error "No bots could be initialized. Check Minecraft server connectivity."
    else
      Except.ok (registeredBots outcomes)

/-- The bot ids still registered when init returns or throws: the catch
path runs shutdown, which empties the map. -/
def initFinalBots (outcomes : List InitOutcome) : List String :=
  match firstFailure outcomes with
  | some _ => []
  | none => registeredBots outcomes

/-- Per-bot resource record owned by the server map: whether the ZMQ
socket has already been closed (botData.socket.closed). The world
handle (the mineflayer bot) is always present for a registered bot. -/
structure BotEntry where
  socketClosed : Bool
  deriving DecidableEq

/-- Resource-release events emitted during cleanup: closing a session's
socket endpoint and ending its world connection. -/
inductive Release
  | socket (id : String)
  | world (id : String)
  deriving DecidableEq

/-- Server state relevant to shutdown: the bot map (association list
with unique keys, mirroring the JavaScript Map) and the shuttingDown
flag. -/
structure ServerState where
  bots : List (String × BotEntry)
  shuttingDown : Bool

/-- Releases performed when cleaning one registered bot: its socket
endpoint (unless already closed) followed by its world handle
(bot.end). -/
def releasesOf (p : String × BotEntry) : List Release :=
  (if p.2.socketClosed then [] else [Release.socket p.1]) ++ [Release.world p.1]

/-- RLBridgeServer.cleanupBot: look the bot up; if present, close its
socket unless already closed, end the bot (releasing the world handle),
and delete the map entry. Errors raised by either release are caught
and logged by the source, so the model is total. Returns the new state
and the releases performed. -/
def cleanupBot (st : ServerState) (id : String) : ServerState × List Release :=
  match st.bots.lookup id with
  | none => (st, [])
  | some e =>
    ({ st with bots := st.bots.filter (fun p => !(p.1 == id)) },
      releasesOf (id, e))

/-- Loop body of shutdown: clean up one bot id, threading the state and
appending its releases. -/
def cleanupFold (acc : ServerState × List Release) (id : String) :
    ServerState × List Release :=
  let r := cleanupBot acc.1 id
  (r.1, acc.2 ++ r.2)

/-- RLBridgeServer.shutdown: set shuttingDown, then clean up every bot
currently in the map, accumulating the releases. -/
def shutdown (st : ServerState) : ServerState × List Release :=
  (st.bots.map Prod.fst).foldl cleanupFold ({ st with shuttingDown := true }, [])

/-! Helper lemmas. -/

/-- Reading a materialized table at its own key always succeeds and
yields the stored vector or the fresh zero vector. -/
lemma materializeKey_self (t : QTable) (s : String) (n : ℕ) :
    materializeKey t s n s = some ((t s).getD (List.replicate n 0)) := by
  unfold materializeKey
  cases h : t s <;> simp [h]

/-- Materialization does not touch other keys. -/
lemma materializeKey_ne (t : QTable) (s : String) (n : ℕ) (k : String)
    (hk : k ≠ s) : materializeKey t s n k = t k := by
  unfold materializeKey
  cases h : t s <;> simp [h, hk]

/-- The doubly materialized table of updateQTable at the state key. -/
lemma materializedPair_fst (t : QTable) (s ns : String) (n : ℕ) :
    materializedPair t s ns n s = some ((t s).getD (List.replicate n 0)) := by
  unfold materializedPair
  by_cases h : s = ns
  · subst h
    rw [materializeKey_self, materializeKey_self]
    simp
  · rw [materializeKey_ne _ _ _ _ h, materializeKey_self]

/-- The doubly materialized table of updateQTable at the next-state key. -/
lemma materializedPair_snd (t : QTable) (s ns : String) (n : ℕ) :
    materializedPair t s ns n ns
      = some (((materializeKey t s n) ns).getD (List.replicate n 0)) := by
  unfold materializedPair
  rw [materializeKey_self]

/-- The doubly materialized table of updateQTable at any other key. -/
lemma materializedPair_other (t : QTable) (s ns : String) (n : ℕ) (k : String)
    (hks : k ≠ s) (hkns : k ≠ ns) : materializedPair t s ns n k = t k := by
  unfold materializedPair
  rw [materializeKey_ne _ _ _ _ hkns, materializeKey_ne _ _ _ _ hks]

/-- Vectors stored in a doubly materialized table keep the well-formed
length. -/
lemma materializedPair_length (t : QTable) (s ns : String) (n : ℕ)
    (hWF : ∀ k v, t k = some v → v.length = n) :
    ∀ k v, materializedPair t s ns n k = some v → v.length = n := by
  intro k v hv
  by_cases hkns : k = ns
  · subst hkns
    rw [materializedPair_snd] at hv
    cases hv
    by_cases hks : k = s
    · subst hks
      rw [materializeKey_self]
      cases h : t k with
      | none => simp
      | some w => simpa using hWF k w h
    · rw [materializeKey_ne _ _ _ _ hks]
      cases h : t k with
      | none => simp
      | some w => simpa using hWF k w h
  · by_cases hks : k = s
    · subst hks
      rw [materializedPair_fst] at hv
      cases hv
      cases h : t k with
      | none => simp
      | some w => simpa using hWF k w h
    · rw [materializedPair_other _ _ _ _ _ hks hkns] at hv
      exact hWF k v hv

/-- Reading a set cell back through getD. -/
lemma getD_set_eq (l : List ℚ) (i : ℕ) (x : ℚ) (h : i < l.length) :
    (l.set i x).getD i 0 = x := by
  rw [List.getD_eq_getElem?_getD]
  rw [List.getElem?_set_self (by simpa using h)]
  simp

/-- Setting one cell leaves every other cell unchanged. -/
lemma getD_set_ne (l : List ℚ) (i j : ℕ) (x : ℚ) (h : j ≠ i) :
    (l.set i x).getD j 0 = l.getD j 0 := by
  rw [List.getD_eq_getElem?_getD, List.getD_eq_getElem?_getD]
  rw [List.getElem?_set_ne (by omega)]

/-- Initial accumulator bound for a max fold. -/
lemma foldl_max_init (xs : List ℚ) : ∀ a : ℚ, a ≤ xs.foldl max a := by
  induction xs with
  | nil => intro a; exact le_refl a
  | cons x xs ih =>
    intro a
    calc a ≤ max a x := le_max_left a x
    _ ≤ (x :: xs).foldl max a := by simpa using ih (max a x)

/-- Every member bounds a max fold from below. -/
lemma foldl_max_mem_le (xs : List ℚ) :
    ∀ (a y : ℚ), y ∈ xs → y ≤ xs.foldl max a := by
  induction xs with
  | nil => intro a y hy; cases hy
  | cons x xs ih =>
    intro a y hy
    rcases List.mem_cons.mp hy with h | h
    · subst h
      calc y ≤ max a y := le_max_right a y
      _ ≤ (y :: xs).foldl max a := by simpa using foldl_max_init xs (max a y)
    · simpa using ih (max a x) y h

/-- A max fold returns its initial value or a member. -/
lemma foldl_max_cases (xs : List ℚ) :
    ∀ a : ℚ, xs.foldl max a = a ∨ xs.foldl max a ∈ xs := by
  induction xs with
  | nil => intro a; left; rfl
  | cons x xs ih =>
    intro a
    have h : (x :: xs).foldl max a = xs.foldl max (max a x) := by simp
    rcases ih (max a x) with h1 | h1
    · rcases max_choice a x with h2 | h2
      · left; rw [h, h1, h2]
      · right; rw [h, h1, h2]; exact List.mem_cons_self x xs
    · right
      rw [h]
      exact List.mem_cons_of_mem x h1

/-- Math.max over a nonempty vector is attained by a member. -/
lemma listMax_mem (v : List ℚ) (hv : v ≠ []) : listMax v ∈ v := by
  cases v with
  | nil => exact absurd rfl hv
  | cons x xs =>
    have he : listMax (x :: xs) = xs.foldl max x := rfl
    rw [he]
    rcases foldl_max_cases xs x with h | h
    · rw [h]; exact List.mem_cons_self x xs
    · exact List.mem_cons_of_mem x h

/-- Math.max over a vector bounds every member. -/
lemma le_listMax (v : List ℚ) (y : ℚ) (hy : y ∈ v) : y ≤ listMax v := by
  cases v with
  | nil => cases hy
  | cons x xs =>
    have he : listMax (x :: xs) = xs.foldl max x := rfl
    rw [he]
    rcases List.mem_cons.mp hy with h | h
    · subst h; exact foldl_max_init xs y
    · exact foldl_max_mem_le xs x y h

/-- Array.prototype.indexOf scans left to right: every cell before the
returned index differs from the sought value. -/
lemma getD_ne_of_lt_indexOf (l : List ℚ) (m : ℚ) :
    ∀ j, j < l.indexOf m → l.getD j 0 ≠ m := by
  induction l with
  | nil => intro j hj; simp [List.indexOf] at hj
  | cons x xs ih =>
    intro j hj
    by_cases hx : x = m
    · rw [List.indexOf_cons_eq xs hx] at hj
      cases hj
    · rw [List.indexOf_cons_ne xs hx] at hj
      cases j with
      | zero => simpa using hx
      | succ j =>
        have := ih j (Nat.lt_of_succ_lt_succ hj)
        simpa using this

/-- Reward of executeAction for a ready session on a resolving
primitive, with the pair selection flattened to a scalar conditional. -/
lemma executeAction_ready_reward_ok (idx : ℚ) (b : Bool)
    (cur fresh : Option Observation) :
    (executeAction true idx (PrimOutcome.ok b) cur fresh).reward =
      if 0 ≤ idx ∧ idx < 5 then
        if idx.isInt then
          if idx = 4 ∧ b = true then 1
          else if idx = 4 ∧ b = false then -(1/10)
          else -(1/100)
        else -(1/2)
      else -(1/5) := by
  show (if 0 ≤ idx ∧ idx < 5 then
      if idx.isInt then
        ((if idx = 4 ∧ b = true then (1:ℚ)
          else if idx = 4 ∧ b = false then -(1/10)
          else -(1/100)), true)
      else (-(1/2), false)
    else (-(1/5), false)).1 = _
  split_ifs <;> rfl

/-- Reward of executeAction for a ready session on a raising primitive:
the caught error costs -1/2 whether or not the lookup found a function. -/
lemma executeAction_ready_reward_raises (idx : ℚ)
    (cur fresh : Option Observation) :
    (executeAction true idx PrimOutcome.raises cur fresh).reward =
      if 0 ≤ idx ∧ idx < 5 then -(1/2) else -(1/5) := by
  show (if 0 ≤ idx ∧ idx < 5 then
      if idx.isInt then ((-(1/2) : ℚ), true) else (-(1/2), false)
    else (-(1/5), false)).1 = _
  split_ifs <;> rfl

/-- Invoked flag of executeAction for a ready session: a primitive runs
exactly when the index passes the range check and is an integer. -/
lemma executeAction_ready_invoked (idx : ℚ) (oc : PrimOutcome)
    (cur fresh : Option Observation) :
    (executeAction true idx oc cur fresh).invoked =
      if 0 ≤ idx ∧ idx < 5 then (if idx.isInt then true else false)
      else false := by
  cases oc with
  | ok b =>
    show (if 0 ≤ idx ∧ idx < 5 then
        if idx.isInt then
          ((if idx = 4 ∧ b = true then (1:ℚ)
            else if idx = 4 ∧ b = false then -(1/10)
            else -(1/100)), true)
        else (-(1/2), false)
      else (-(1/5), false)).2 = _
    split_ifs <;> rfl
  | raises =>
    show (if 0 ≤ idx ∧ idx < 5 then
        if idx.isInt then ((-(1/2) : ℚ), true) else (-(1/2), false)
      else (-(1/5), false)).2 = _
    split_ifs <;> rfl

/-- Done flag of executeAction for a ready session is always false. -/
lemma executeAction_ready_done (idx : ℚ) (oc : PrimOutcome)
    (cur fresh : Option Observation) :
    (executeAction true idx oc cur fresh).done = false := rfl

/-- Cache refresh of executeAction for a ready session: the fresh
observation wins when available, otherwise the old cache stays. -/
lemma executeAction_ready_newState (idx : ℚ) (oc : PrimOutcome)
    (cur fresh : Option Observation) :
    (executeAction true idx oc cur fresh).newState
      = if fresh.isSome then fresh else cur := rfl

/-- One decayEpsilon call cannot raise epsilon when epsilon already sits
at or above a non-negative floor and the rate is in the unit interval. -/
lemma decay_step_le (f r : ℚ) (b : QAgent) (hf : 0 ≤ f) (hr0 : 0 ≤ r)
    (hr1 : r ≤ 1) (h : f ≤ b.epsilon) :
    (decayEpsilon b f r).epsilon ≤ b.epsilon := by
  have he : 0 ≤ b.epsilon := le_trans hf h
  have h2 : b.epsilon * r ≤ b.epsilon := by nlinarith
  exact max_le h h2

/-- Iterating decayEpsilon keeps epsilon at or above the floor. -/
lemma decay_iter_ge (f r : ℚ) (ag : QAgent) (h : f ≤ ag.epsilon) :
    ∀ n : ℕ, f ≤ (((fun b => decayEpsilon b f r)^[n]) ag).epsilon := by
  intro n
  cases n with
  | zero => simpa using h
  | succ m =>
    rw [Function.iterate_succ_apply']
    exact le_max_left _ _

/-- First normalization loop is the identity at or below 180 degrees. -/
lemma normUp_of_le (a : ℚ) (h : a ≤ 180) : normUp a = a := by
  rw [normUp]
  rw [dif_neg (not_lt.mpr h)]

/-- Second normalization loop is the identity at or above -180 degrees. -/
lemma normDown_of_ge (a : ℚ) (h : -180 ≤ a) : normDown a = a := by
  rw [normDown]
  rw [dif_neg (not_lt.mpr h)]

/-- Normalization is the identity on the -180..180 band. -/
lemma normalizeAngle_of_mem (a : ℚ) (h1 : -180 ≤ a) (h2 : a ≤ 180) :
    normalizeAngle a = a := by
  unfold normalizeAngle
  rw [normUp_of_le a h2, normDown_of_ge a h1]

/-- Shape of getStateKey when a tree is visible and a closest log is
recorded: the key concatenates the distance bucket and the direction of
the normalized relative angle. -/
lemma getStateKey_visible (o : Observation) (lg : LogInfo) (ang : ℚ)
    (hv : o.tree_visible = true) (hc : o.closest_log = some lg) :
    getStateKey o ang =
      "log_visible_" ++
        (if lg.distance < 3 then "close"
         else if lg.distance < 6 then "medium" else "far")
      ++ "_" ++ directionOf (normalizeAngle (ang - o.yaw)) := by
  unfold getStateKey
  rw [hv, hc]

/-- Option.getD through a list index below the length is the element. -/
lemma getD_eq_getElem_of_lt (l : List ℚ) (i : ℕ) (h : i < l.length) :
    l.getD i 0 = l[i] := by
  rw [List.getD_eq_getElem?_getD, List.getElem?_eq_getElem h]
  rfl

/-- Slot read of an elementwise maximum. -/
lemma getD_zipWith_max (u v : List ℚ) (a : ℕ) (hu : a < u.length)
    (hv : a < v.length) :
    (List.zipWith max u v).getD a 0 = max (u.getD a 0) (v.getD a 0) := by
  have hl : a < (List.zipWith max u v).length := by
    rw [List.length_zipWith]
    omega
  rw [getD_eq_getElem_of_lt _ _ hl, getD_eq_getElem_of_lt _ _ hu,
    getD_eq_getElem_of_lt _ _ hv, List.getElem_zipWith]

/-- Folding a table without the key leaves the merged entry alone. -/
lemma mergeInto_of_none (acc t : QTable) (s : String) (h : t s = none) :
    mergeInto acc t s = acc s := by
  unfold mergeInto
  rw [h]

/-- Folding a table holding the key takes the elementwise maximum with
the existing entry or the fresh zero vector. -/
lemma mergeInto_of_some (acc t : QTable) (s : String) (v : List ℚ)
    (h : t s = some v) :
    mergeInto acc t s
      = some (List.zipWith max ((acc s).getD (List.replicate 5 0)) v) := by
  unfold mergeInto
  rw [h]

/-- Merging preserves the length-5 well-formedness of vectors. -/
lemma mergeInto_WF (acc t : QTable) (hacc : WFTable acc) (ht : WFTable t) :
    WFTable (mergeInto acc t) := by
  intro s v hv
  cases h : t s with
  | none =>
    rw [mergeInto_of_none _ _ _ h] at hv
    exact hacc s v hv
  | some w =>
    rw [mergeInto_of_some _ _ _ _ h] at hv
    cases hv
    have hw : w.length = 5 := ht s w h
    have haccL : ((acc s).getD (List.replicate 5 0)).length = 5 := by
      cases h2 : acc s with
      | none => simp
      | some u => simpa using hacc s u h2
    rw [List.length_zipWith, haccL, hw]
    omega

/-- The empty object is well-formed. -/
lemma emptyTable_WF : WFTable emptyTable := by
  intro s v hv
  simp [emptyTable] at hv

/-- Folding a list of well-formed tables preserves well-formedness. -/
lemma foldl_mergeInto_WF : ∀ (ts : List QTable) (acc : QTable),
    WFTable acc → (∀ t ∈ ts, WFTable t) → WFTable (ts.foldl mergeInto acc) := by
  intro ts
  induction ts with
  | nil => intro acc hacc _; exact hacc
  | cons t ts ih =>
    intro acc hacc hts
    rw [List.foldl_cons]
    exact ih (mergeInto acc t)
      (mergeInto_WF acc t hacc (hts t (List.mem_cons_self t ts)))
      (fun x hx => hts x (List.mem_cons_of_mem t hx))

/-- A key is present in the fold exactly when the accumulator or some
folded table holds it. -/
lemma foldl_mergeInto_isSome : ∀ (ts : List QTable) (acc : QTable) (s : String),
    ((ts.foldl mergeInto acc) s).isSome
      ↔ ((acc s).isSome ∨ ∃ t ∈ ts, (t s).isSome) := by
  intro ts
  induction ts with
  | nil => intro acc s; simp
  | cons t ts ih =>
    intro acc s
    rw [List.foldl_cons, ih]
    cases h : t s with
    | none =>
      rw [mergeInto_of_none _ _ _ h]
      simp only [List.mem_cons]
      constructor
      · rintro (ha | ⟨x, hx, hxs⟩)
        · exact Or.inl ha
        · exact Or.inr ⟨x, Or.inr hx, hxs⟩
      · rintro (ha | ⟨x, (rfl | hx), hxs⟩)
        · exact Or.inl ha
        · rw [h] at hxs; cases hxs
        · exact Or.inr ⟨x, hx, hxs⟩
    | some w =>
      rw [mergeInto_of_some _ _ _ _ h]
      constructor
      · intro _
        exact Or.inr ⟨t, List.mem_cons_self t ts, by rw [h]; rfl⟩
      · intro _
        exact Or.inl rfl

/-- Slot a of the fold equals the running maximum, seeded with the
accumulator's slot, over the corresponding slots of every folded table
that holds the key. -/
lemma foldl_mergeInto_slotD : ∀ (ts : List QTable) (acc : QTable) (s : String)
    (a : ℕ), a < 5 → WFTable acc → (∀ t ∈ ts, WFTable t) →
    slotD (ts.foldl mergeInto acc) s a
      = ((ts.filterMap (fun t => t s)).map (fun v => v.getD a 0)).foldl max
          (slotD acc s a) := by
  intro ts
  induction ts with
  | nil => intro acc s a _ _ _; rfl
  | cons t ts ih =>
    intro acc s a ha hacc hts
    have hWFt : WFTable t := hts t (List.mem_cons_self t ts)
    have hrest : ∀ x ∈ ts, WFTable x :=
      fun x hx => hts x (List.mem_cons_of_mem t hx)
    rw [List.foldl_cons,
      ih (mergeInto acc t) s a ha (mergeInto_WF acc t hacc hWFt) hrest]
    cases h : t s with
    | none =>
      have h1 : slotD (mergeInto acc t) s a = slotD acc s a := by
        unfold slotD
        rw [mergeInto_of_none acc t s h]
      have h2 : (t :: ts).filterMap (fun t2 => t2 s)
          = ts.filterMap (fun t2 => t2 s) := by
        simp [List.filterMap_cons, h]
      rw [h1, h2]
    | some v =>
      have hv5 : v.length = 5 := hWFt s v h
      have haccL : ((acc s).getD (List.replicate 5 0)).length = 5 := by
        cases h2 : acc s with
        | none => simp
        | some w => simpa using hacc s w h2
      have h1 : slotD (mergeInto acc t) s a
          = max (slotD acc s a) (v.getD a 0) := by
        unfold slotD
        rw [mergeInto_of_some acc t s v h, Option.getD_some]
        rw [getD_zipWith_max _ _ a (by omega) (by omega)]
      have h2 : (t :: ts).filterMap (fun t2 => t2 s)
          = v :: ts.filterMap (fun t2 => t2 s) := by
        simp [List.filterMap_cons, h]
      rw [h1, h2, List.map_cons, List.foldl_cons]

/-- A slot of the empty object reads zero. -/
lemma slotD_empty (s : String) (a : ℕ) : slotD emptyTable s a = 0 := by
  unfold slotD emptyTable
  show ((List.replicate 5 (0:ℚ)).getD a 0) = 0
  rw [List.getD_eq_getElem?_getD, List.getElem?_replicate]
  rcases Nat.lt_or_ge a 5 with h | h
  · rw [if_pos h]
    rfl
  · rw [if_neg (by omega)]
    rfl

/-- Zero-seeded elementwise maximum of two length-5 vectors is symmetric
in the two vectors. -/
lemma zipWith_max_zero_comm (u v : List ℚ) (hu : u.length = 5)
    (hv : v.length = 5) :
    List.zipWith max (List.zipWith max (List.replicate 5 0) u) v
      = List.zipWith max (List.zipWith max (List.replicate 5 0) v) u := by
  apply List.ext_getElem
  · simp [hu, hv]
  · intro i h1 h2
    simp only [List.getElem_zipWith, List.getElem_replicate]
    rw [max_assoc, max_assoc]
    congr 1
    exact max_comm _ _

/-- Zero-seeded elementwise maximum absorbs a duplicate vector. -/
lemma zipWith_max_zero_idem (u : List ℚ) (hu : u.length = 5) :
    List.zipWith max (List.zipWith max (List.replicate 5 0) u) u
      = List.zipWith max (List.replicate 5 0) u := by
  apply List.ext_getElem
  · simp [hu]
  · intro i h1 h2
    simp only [List.getElem_zipWith, List.getElem_replicate]
    rw [max_assoc, max_self]

/-- Accumulated releases factor out of the cleanup fold. -/
lemma cleanupFold_acc (ids : List String) : ∀ (s : ServerState)
    (rs : List Release),
    ids.foldl cleanupFold (s, rs)
      = ((ids.foldl cleanupFold (s, [])).1,
          rs ++ (ids.foldl cleanupFold (s, [])).2) := by
  induction ids with
  | nil => intro s rs; simp
  | cons id ids ih =>
    intro s rs
    rw [List.foldl_cons, List.foldl_cons]
    have h1 : cleanupFold (s, rs) id
        = ((cleanupBot s id).1, rs ++ (cleanupBot s id).2) := rfl
    have h2 : cleanupFold (s, []) id
        = ((cleanupBot s id).1, [] ++ (cleanupBot s id).2) := rfl
    rw [h1, h2, ih ((cleanupBot s id).1) (rs ++ (cleanupBot s id).2),
      ih ((cleanupBot s id).1) ([] ++ (cleanupBot s id).2)]
    simp

/-- Map lookup at the head key. -/
lemma lookup_cons_self (id : String) (e : BotEntry)
    (l : List (String × BotEntry)) : ((id, e) :: l).lookup id = some e := by
  simp [List.lookup]

/-- Deleting an absent key from the map changes nothing. -/
lemma filter_ne_self (bs : List (String × BotEntry)) (id : String)
    (h : id ∉ bs.map Prod.fst) : bs.filter (fun p => !(p.1 == id)) = bs := by
  apply List.filter_eq_self.mpr
  intro p hp
  have hne : p.1 ≠ id := fun hc => h (hc ▸ List.mem_map_of_mem Prod.fst hp)
  simp [hne]

/-- Cleaning up the head bot of the map removes exactly its entry and
emits exactly its releases. -/
lemma cleanupBot_cons (id : String) (e : BotEntry)
    (rest : List (String × BotEntry)) (sd : Bool)
    (h : id ∉ rest.map Prod.fst) :
    cleanupBot ⟨(id, e) :: rest, sd⟩ id = (⟨rest, sd⟩, releasesOf (id, e)) := by
  unfold cleanupBot
  rw [lookup_cons_self]
  have hf : ((id, e) :: rest).filter (fun p => !(p.1 == id)) = rest := by
    rw [List.filter_cons]
    simp [filter_ne_self rest id h]
  simp only []
  rw [hf]

/-- Running the shutdown fold over the whole key list empties the map
and emits each owned bot's releases in map order. -/
lemma shutdown_run : ∀ (bs : List (String × BotEntry)) (st : ServerState),
    st.bots = bs → (bs.map Prod.fst).Nodup →
    (bs.map Prod.fst).foldl cleanupFold (st, [])
      = ({ st with bots := [] }, bs.flatMap releasesOf) := by
  intro bs
  induction bs with
  | nil =>
    intro st hb _
    rw [List.map_nil, List.foldl_nil]
    cases st with
    | mk b sd =>
      cases hb
      rfl
  | cons p rest ih =>
    intro st hb hnd
    obtain ⟨id, e⟩ := p
    rw [List.map_cons] at hnd
    have hnotin : id ∉ rest.map Prod.fst := (List.nodup_cons.mp hnd).1
    have hrest : (rest.map Prod.fst).Nodup := (List.nodup_cons.mp hnd).2
    rw [List.map_cons, List.foldl_cons]
    have hst : st = ⟨(id, e) :: rest, st.shuttingDown⟩ := by
      cases st with
      | mk b sd =>
        cases hb
        rfl
    have hcb : cleanupBot st id = (⟨rest, st.shuttingDown⟩, releasesOf (id, e)) := by
      rw [hst]
      exact cleanupBot_cons id e rest _ hnotin
    have hcf : cleanupFold (st, []) id
        = (⟨rest, st.shuttingDown⟩, releasesOf (id, e)) := by
      show ((cleanupBot st id).1, [] ++ (cleanupBot st id).2) = _
      rw [hcb]
      rfl
    rw [hcf, cleanupFold_acc (rest.map Prod.fst) ⟨rest, st.shuttingDown⟩
        (releasesOf (id, e)),
      ih ⟨rest, st.shuttingDown⟩ rfl hrest]
    rw [hst]
    rfl

/-- Releases of a bot list mention no absent id. -/
lemma count_releases_not_mem : ∀ (bs : List (String × BotEntry)) (id : String),
    id ∉ bs.map Prod.fst →
    (bs.flatMap releasesOf).count (Release.world id) = 0 ∧
    (bs.flatMap releasesOf).count (Release.socket id) = 0 := by
  intro bs
  induction bs with
  | nil => intro id _; exact ⟨rfl, rfl⟩
  | cons p rest ih =>
    intro id h
    obtain ⟨id0, e0⟩ := p
    rw [List.map_cons] at h
    have hne : id0 ≠ id := by
      intro hc
      exact h (hc ▸ List.mem_cons_self _ _)
    have hrest : id ∉ rest.map Prod.fst := by
      intro hc
      exact h (List.mem_cons_of_mem _ hc)
    have hr := ih id hrest
    constructor
    · rw [List.flatMap_cons, List.count_append, hr.1]
      cases hso : e0.socketClosed <;>
        simp [releasesOf, hso, List.count_cons, hne]
    · rw [List.flatMap_cons, List.count_append, hr.2]
      cases hso : e0.socketClosed <;>
        simp [releasesOf, hso, List.count_cons, hne]

/-- With unique keys, the shutdown releases mention each owned bot's
world handle exactly once, and its socket exactly once unless it was
already closed. -/
lemma count_releases_mem : ∀ (bs : List (String × BotEntry)) (id : String)
    (e : BotEntry), (bs.map Prod.fst).Nodup → (id, e) ∈ bs →
    (bs.flatMap releasesOf).count (Release.world id) = 1 ∧
    (bs.flatMap releasesOf).count (Release.socket id)
      = (if e.socketClosed then 0 else 1) := by
  intro bs
  induction bs with
  | nil => intro id e _ h; cases h
  | cons p rest ih =>
    intro id e hnd hmem
    obtain ⟨id0, e0⟩ := p
    rw [List.map_cons, List.nodup_cons] at hnd
    rcases List.mem_cons.mp hmem with heq | hmem2
    · injection heq with h1 h2
      subst h1
      subst h2
      have hz := count_releases_not_mem rest id hnd.1
      constructor
      · rw [List.flatMap_cons, List.count_append, hz.1]
        cases hso : e.socketClosed <;>
          simp [releasesOf, hso, List.count_cons]
      · rw [List.flatMap_cons, List.count_append, hz.2]
        cases hso : e.socketClosed <;>
          simp [releasesOf, hso, List.count_cons]
    · have hid : id0 ≠ id := by
        intro hc
        subst hc
        exact hnd.1 (List.mem_map.mpr ⟨(id0, e), hmem2, rfl⟩)
      have hr := ih id e hnd.2 hmem2
      constructor
      · rw [List.flatMap_cons, List.count_append, hr.1]
        cases hso : e0.socketClosed <;>
          simp [releasesOf, hso, List.count_cons, hid]
      · rw [List.flatMap_cons, List.count_append, hr.2]
        cases hso : e0.socketClosed <;>
          simp [releasesOf, hso, List.count_cons, hid]

/-! Claim theorems. -/

/-- C7 (amended): decayEpsilon sets epsilon to max(floor, epsilon * rate);
provided the floor is non-negative, the rate lies in the unit interval and
the current epsilon is at least the floor, every post-call epsilon stays
at or above the floor and the sequence of epsilons across any number of
calls is monotonically non-increasing. (As originally stated the claim
fails: a call made while epsilon is below the floor raises epsilon to the
floor — see the counterexample.) -/
theorem claim7_decay_epsilon (ag : QAgent) (f r : ℚ)
    (hf : 0 ≤ f) (hr0 : 0 ≤ r) (hr1 : r ≤ 1) (h : f ≤ ag.epsilon) :
    ((decayEpsilon ag f r).epsilon = max f (ag.epsilon * r)) ∧
    (∀ n : ℕ, f ≤ (((fun b => decayEpsilon b f r)^[n + 1]) ag).epsilon) ∧
    (∀ n : ℕ, (((fun b => decayEpsilon b f r)^[n + 1]) ag).epsilon ≤
      (((fun b => decayEpsilon b f r)^[n]) ag).epsilon) := by
  refine ⟨rfl, fun n => decay_iter_ge f r ag h (n + 1), fun n => ?_⟩
  rw [Function.iterate_succ_apply']
  exact decay_step_le f r _ hf hr0 hr1 (decay_iter_ge f r ag h n)

/-- C7 witness: a concrete agent with epsilon 1/5, floor 1/20 and rate
9/10 never drops below the floor and does not increase on the first
call. -/
theorem claim7_decay_epsilon_witness :
    (1/20 : ℚ) ≤ (((fun b => decayEpsilon b (1/20) (9/10))^[1])
        ⟨1/5, 1/10, 9/10, emptyTable, 5⟩).epsilon ∧
    (((fun b => decayEpsilon b (1/20) (9/10))^[1])
        ⟨1/5, 1/10, 9/10, emptyTable, 5⟩).epsilon ≤
      (((fun b => decayEpsilon b (1/20) (9/10))^[0])
        ⟨1/5, 1/10, 9/10, emptyTable, 5⟩).epsilon :=
  ⟨(claim7_decay_epsilon ⟨1/5, 1/10, 9/10, emptyTable, 5⟩ (1/20) (9/10)
      (by norm_num) (by norm_num) (by norm_num) (by norm_num)).2.1 0,
   (claim7_decay_epsilon ⟨1/5, 1/10, 9/10, emptyTable, 5⟩ (1/20) (9/10)
      (by norm_num) (by norm_num) (by norm_num) (by norm_num)).2.2 0⟩

/-- C7 counterexample: with floor 1/20, rate 9/10 in the unit interval
and epsilon currently 1/100, a decayEpsilon call raises epsilon to the
floor, so the sequence of epsilons is not monotonically non-increasing
for every floor value. -/
theorem claim7_decay_epsilon_counterexample :
    (decayEpsilon ⟨1/100, 1/10, 9/10, emptyTable, 5⟩ (1/20) (9/10)).epsilon
      = 1/20 ∧
    (⟨1/100, 1/10, 9/10, emptyTable, 5⟩ : QAgent).epsilon < 1/20 := by
  constructor
  · show max (1/20 : ℚ) (1/100 * (9/10)) = 1/20
    norm_num
  · show (1/100 : ℚ) < 1/20
    norm_num

/-- C4: updateQTable first materializes zero vectors for the state key
and next-state key when absent, then overwrites slot a of the state key
vector with Q[s][a] + alpha * (r + gamma * max Q[ns] - Q[s][a]), leaving
every other slot of that vector and every other key untouched. -/
theorem claim4_updateQTable (ag : QAgent) (s : String) (a : ℕ) (r : ℚ)
    (ns : String) (ha : a < ag.actions_count)
    (hWF : ∀ k v, ag.q_table k = some v → v.length = ag.actions_count) :
    (ag.q_table s = none →
      materializedPair ag.q_table s ns ag.actions_count s
        = some (List.replicate ag.actions_count 0)) ∧
    (ag.q_table ns = none →
      materializedPair ag.q_table s ns ag.actions_count ns
        = some (List.replicate ag.actions_count 0)) ∧
    (((updateQTable ag s a r ns).q_table s).getD []).getD a 0
      = ((materializedPair ag.q_table s ns ag.actions_count s).getD []).getD a 0
        + ag.learning_rate *
          (r + ag.discount_factor *
              listMax ((materializedPair ag.q_table s ns ag.actions_count ns).getD [])
            - ((materializedPair ag.q_table s ns ag.actions_count s).getD []).getD a 0) ∧
    (∀ j, j ≠ a →
      (((updateQTable ag s a r ns).q_table s).getD []).getD j 0
        = ((materializedPair ag.q_table s ns ag.actions_count s).getD []).getD j 0) ∧
    (∀ k, k ≠ s →
      (updateQTable ag s a r ns).q_table k
        = materializedPair ag.q_table s ns ag.actions_count k) := by
  have hlen : ((materializedPair ag.q_table s ns ag.actions_count s).getD []).length
      = ag.actions_count := by
    rw [materializedPair_fst]
    cases h : ag.q_table s with
    | none => simp
    | some w => simpa using hWF s w h
  have hq : ∀ k, (updateQTable ag s a r ns).q_table k
      = if k = s then
          some (((materializedPair ag.q_table s ns ag.actions_count s).getD []).set a
            (((materializedPair ag.q_table s ns ag.actions_count s).getD []).getD a 0
              + ag.learning_rate *
                (r + ag.discount_factor *
                    listMax ((materializedPair ag.q_table s ns ag.actions_count ns).getD [])
                  - ((materializedPair ag.q_table s ns ag.actions_count s).getD []).getD a 0)))
        else materializedPair ag.q_table s ns ag.actions_count k :=
    fun k => rfl
  refine ⟨?_, ?_, ?_, ?_, ?_⟩
  · intro h
    rw [materializedPair_fst, h]
    rfl
  · intro h
    rw [materializedPair_snd]
    by_cases hns : ns = s
    · subst hns
      rw [materializeKey_self, h]
      rfl
    · rw [materializeKey_ne _ _ _ _ hns, h]
      rfl
  · rw [hq s, if_pos rfl]
    show ((((materializedPair ag.q_table s ns ag.actions_count s).getD []).set a _).getD a 0) = _
    rw [getD_set_eq _ _ _ (by rw [hlen]; exact ha)]
  · intro j hj
    rw [hq s, if_pos rfl]
    show ((((materializedPair ag.q_table s ns ag.actions_count s).getD []).set a _).getD j 0) = _
    rw [getD_set_ne _ _ _ _ hj]
  · intro k hk
    rw [hq k, if_neg hk]

/-- C4 witness: the hand-computed example from the specification. With
learning rate 1/10, discount factor 9/10, an empty table (so Q[s][a] = 0
and max Q[ns] = 0) and reward 1, the updated slot holds 1/10. -/
theorem claim4_updateQTable_witness :
    (((updateQTable ⟨1/5, 1/10, 9/10, emptyTable, 5⟩ "A" 0 1 "B").q_table "A").getD
        []).getD 0 0 = 1/10 := by
  have hthm := claim4_updateQTable ⟨1/5, 1/10, 9/10, emptyTable, 5⟩ "A" 0 1 "B"
    (by norm_num) (by intro k v hv; simp [emptyTable] at hv)
  have hA := hthm.1 rfl
  have hB := hthm.2.1 rfl
  rw [hthm.2.2.1, hA, hB]
  show (List.replicate 5 (0:ℚ)).getD 0 0
      + (1/10 : ℚ) * (1 + (9/10 : ℚ) * listMax (List.replicate 5 (0:ℚ))
        - (List.replicate 5 (0:ℚ)).getD 0 0) = 1/10
  have h1 : (List.replicate 5 (0:ℚ)).getD 0 0 = 0 := rfl
  have h2 : listMax (List.replicate 5 (0:ℚ)) = 0 := by
    show List.foldl max (0:ℚ) [0, 0, 0, 0] = 0
    simp
  rw [h1, h2]
  norm_num

/-- C3: for a take_action processed while the session is ready, the
reward is exactly one of five values, determined by the (integer, per
the wire protocol) action index and the primitive's outcome: index 4
with success gives 1; index 4 with failure gives -1/10; indices 0..3
give -1/100; an out-of-range index gives -1/5; a primitive that raises
gives -1/2. -/
theorem claim3_reward_cases (n : ℤ) (oc : PrimOutcome)
    (cur fresh : Option Observation) :
    (0 ≤ n → n < 5 → oc = PrimOutcome.raises →
      (executeAction true (n:ℚ) oc cur fresh).reward = -(1/2)) ∧
    (n = 4 → oc = PrimOutcome.ok true →
      (executeAction true (n:ℚ) oc cur fresh).reward = 1) ∧
    (n = 4 → oc = PrimOutcome.ok false →
      (executeAction true (n:ℚ) oc cur fresh).reward = -(1/10)) ∧
    (0 ≤ n → n < 4 → ∀ b, oc = PrimOutcome.ok b →
      (executeAction true (n:ℚ) oc cur fresh).reward = -(1/100)) ∧
    ((n < 0 ∨ 5 ≤ n) →
      (executeAction true (n:ℚ) oc cur fresh).reward = -(1/5)) ∧
    ((executeAction true (n:ℚ) oc cur fresh).reward = 1 ∨
      (executeAction true (n:ℚ) oc cur fresh).reward = -(1/10) ∨
      (executeAction true (n:ℚ) oc cur fresh).reward = -(1/100) ∨
      (executeAction true (n:ℚ) oc cur fresh).reward = -(1/5) ∨
      (executeAction true (n:ℚ) oc cur fresh).reward = -(1/2)) := by
  have hIsInt : ((n:ℚ)).isInt = true := by
    simp [Rat.isInt, Rat.den_intCast]
  have c1 : 0 ≤ n → n < 5 → oc = PrimOutcome.raises →
      (executeAction true (n:ℚ) oc cur fresh).reward = -(1/2) := by
    intro h0 h5 hoc
    have hq0 : (0:ℚ) ≤ (n:ℚ) := by exact_mod_cast h0
    have hq5 : ((n:ℚ)) < 5 := by exact_mod_cast h5
    subst hoc
    rw [executeAction_ready_reward_raises, if_pos ⟨hq0, hq5⟩]
  have c2 : n = 4 → oc = PrimOutcome.ok true →
      (executeAction true (n:ℚ) oc cur fresh).reward = 1 := by
    intro hn hoc
    subst hn; subst hoc
    have h4 : (((4:ℤ):ℚ)) = 4 := by norm_num
    rw [executeAction_ready_reward_ok, if_pos ⟨by norm_num, by norm_num⟩, hIsInt,
      if_pos rfl, if_pos ⟨h4, rfl⟩]
  have c3 : n = 4 → oc = PrimOutcome.ok false →
      (executeAction true (n:ℚ) oc cur fresh).reward = -(1/10) := by
    intro hn hoc
    subst hn; subst hoc
    have h4 : (((4:ℤ):ℚ)) = 4 := by norm_num
    rw [executeAction_ready_reward_ok, if_pos ⟨by norm_num, by norm_num⟩, hIsInt,
      if_pos rfl, if_neg (by simp), if_pos ⟨h4, rfl⟩]
  have c4 : 0 ≤ n → n < 4 → ∀ b, oc = PrimOutcome.ok b →
      (executeAction true (n:ℚ) oc cur fresh).reward = -(1/100) := by
    intro h0 h4 b hoc
    subst hoc
    have hq0 : (0:ℚ) ≤ (n:ℚ) := by exact_mod_cast h0
    have hq5 : ((n:ℚ)) < 5 := by
      have h5i : (n:ℤ) < 5 := by omega
      exact_mod_cast h5i
    have hne : ((n:ℚ)) ≠ 4 := by
      intro hc
      have hni : n = 4 := by exact_mod_cast hc
      omega
    rw [executeAction_ready_reward_ok, if_pos ⟨hq0, hq5⟩, hIsInt, if_pos rfl,
      if_neg (fun hc => hne hc.1), if_neg (fun hc => hne hc.1)]
  have c5 : (n < 0 ∨ 5 ≤ n) →
      (executeAction true (n:ℚ) oc cur fresh).reward = -(1/5) := by
    intro h
    have hq : ¬((0:ℚ) ≤ (n:ℚ) ∧ ((n:ℚ)) < 5) := by
      intro hc
      rcases h with h | h
      · have h0i : (0:ℤ) ≤ n := by exact_mod_cast hc.1
        omega
      · have h5i : (n:ℤ) < 5 := by exact_mod_cast hc.2
        omega
    cases oc with
    | ok b => rw [executeAction_ready_reward_ok, if_neg hq]
    | raises => rw [executeAction_ready_reward_raises, if_neg hq]
  refine ⟨c1, c2, c3, c4, c5, ?_⟩
  by_cases h1 : n < 0 ∨ 5 ≤ n
  · exact Or.inr (Or.inr (Or.inr (Or.inl (c5 h1))))
  · push_neg at h1
    cases oc with
    | raises =>
      exact Or.inr (Or.inr (Or.inr (Or.inr (c1 h1.1 h1.2 rfl))))
    | ok b =>
      by_cases h4 : n = 4
      · cases b with
        | true => exact Or.inl (c2 h4 rfl)
        | false => exact Or.inr (Or.inl (c3 h4 rfl))
      · have hlt : n < 4 := by omega
        exact Or.inr (Or.inr (Or.inl (c4 h1.1 hlt b rfl)))

/-- C3 witness: a ready session breaking a block successfully (index 4)
earns reward 1, and index 7 is out of range and earns -1/5. -/
theorem claim3_reward_cases_witness :
    (executeAction true ((4:ℤ):ℚ) (PrimOutcome.ok true) none none).reward = 1 ∧
    (executeAction true ((7:ℤ):ℚ) PrimOutcome.raises none none).reward = -(1/5) :=
  ⟨(claim3_reward_cases 4 (PrimOutcome.ok true) none none).2.1 rfl rfl,
   (claim3_reward_cases 7 PrimOutcome.raises none none).2.2.2.2.1
     (Or.inr (by norm_num))⟩

/-- C8 (amended): an action index outside [0,5) — negative or at least
5, integer or not — yields reward -1/5 with no primitive invoked, and a
non-integer index inside the range passes the numeric range check, finds
no function at its array slot, and the caught call failure yields reward
-1/2, again with no primitive invoked; in every case the message loop
answers a well-formed ok response carrying exactly that reward, a
next_state and done = false (the original claim, which promised -1/5
also for non-integer in-range indices, is refuted by the
counterexample). -/
theorem claim8_invalid_index (q : ℚ) (oc : PrimOutcome) (st : SessionState)
    (hready : st.ready = true) :
    ((q < 0 ∨ 5 ≤ q) →
      (executeAction true q oc st.currentState st.fresh).reward = -(1/5) ∧
      (executeAction true q oc st.currentState st.fresh).invoked = false) ∧
    (0 ≤ q → q < 5 → q.isInt = false →
      (executeAction true q oc st.currentState st.fresh).reward = -(1/2) ∧
      (executeAction true q oc st.currentState st.fresh).invoked = false) ∧
    ((handleCommand st (Command.take_action q) oc true).1.status = "ok" ∧
      (handleCommand st (Command.take_action q) oc true).1.reward
        = some (executeAction true q oc st.currentState st.fresh).reward ∧
      (handleCommand st (Command.take_action q) oc true).1.next_state
        = some ((executeAction true q oc st.currentState st.fresh).newState.getD
            defaultObservation) ∧
      (handleCommand st (Command.take_action q) oc true).1.done = some false) := by
  refine ⟨?_, ?_, ?_⟩
  · intro h
    have hq : ¬((0:ℚ) ≤ q ∧ q < 5) := by
      intro hc
      rcases h with h | h
      · linarith [hc.1]
      · linarith [hc.2]
    constructor <;> simp [executeAction, hq]
  · intro h0 h5 hInt
    constructor <;> simp [executeAction, h0, h5, hInt]
  · refine ⟨?_, ?_, ?_, ?_⟩ <;>
      simp [handleCommand, hready, baseResponse, executeAction]

/-- C8 witness: index 7 is rejected with reward -1/5 and no primitive,
and the loop answers with status ok. -/
theorem claim8_invalid_index_witness :
    ((executeAction true 7 PrimOutcome.raises none none).reward = -(1/5) ∧
      (executeAction true 7 PrimOutcome.raises none none).invoked = false) ∧
    (handleCommand ⟨true, none, none, true⟩ (Command.take_action 7)
        PrimOutcome.raises true).1.status = "ok" :=
  ⟨(claim8_invalid_index 7 PrimOutcome.raises ⟨true, none, none, true⟩ rfl).1
      (Or.inr (by norm_num)),
   (claim8_invalid_index 7 PrimOutcome.raises ⟨true, none, none, true⟩ rfl).2.2.1⟩

/-- C8 counterexample: the non-integer index 5/2 lies inside the numeric
range check, so executeAction reaches the array lookup, the call of the
missing function raises, and the caught error yields reward -1/2 — not
the -1/5 the claim as stated promises for every invalid index. -/
theorem claim8_invalid_index_counterexample :
    (executeAction true (5/2) (PrimOutcome.ok true) none none).reward = -(1/2) ∧
    ¬((executeAction true (5/2) (PrimOutcome.ok true) none none).reward
        = -(1/5)) := by
  have hden : (5/2 : ℚ).den = 2 := by norm_num
  have hInt : (5/2 : ℚ).isInt = false := by simp [Rat.isInt, hden]
  have hr : (executeAction true (5/2) (PrimOutcome.ok true) none none).reward
      = -(1/2) := by
    rw [executeAction_ready_reward_ok, if_pos ⟨by norm_num, by norm_num⟩, hInt]
    rw [if_neg (by simp)]
  refine ⟨hr, ?_⟩
  rw [hr]
  norm_num

/-- C1: with three sessions of which the middle one fails during
initialization, init propagates the failure as an error after shutdown
has emptied the bot map — it does not return the two healthy sessions,
even though both had registered (the stated claim describes the intended
aggregation that the success log line and the empty-map check of init
anticipate, but Promise.all rejects on the first failure). -/
theorem claim1_init_aborts_on_partial_failure :
    init [InitOutcome.success, InitOutcome.failure "bot_1 Bot spawn timed out",
        InitOutcome.success]
      = Except.error "bot_1 Bot spawn timed out" ∧
    initFinalBots [InitOutcome.success,
        InitOutcome.failure "bot_1 Bot spawn timed out", InitOutcome.success]
      = [] ∧
    registeredBots [InitOutcome.success,
        InitOutcome.failure "bot_1 Bot spawn timed out", InitOutcome.success]
      = ["bot_0", "bot_2"] := by
  refine ⟨rfl, rfl, ?_⟩
  rfl

/-- C9: shutdown empties the live set and releases each owned session's
socket endpoint at most once (exactly once unless it was already
closed) and its world handle exactly once; the model is total (the
source catches and suppresses all cleanup errors), and a second
shutdown call finds an empty map, performs no release and leaves the
state unchanged. -/
theorem claim9_shutdown_idempotent (st : ServerState)
    (hnd : (st.bots.map Prod.fst).Nodup) :
    ((shutdown st).1.bots = [] ∧ (shutdown st).1.shuttingDown = true) ∧
    (∀ id e, (id, e) ∈ st.bots →
      (shutdown st).2.count (Release.world id) = 1 ∧
      (shutdown st).2.count (Release.socket id)
        = (if e.socketClosed then 0 else 1)) ∧
    (shutdown (shutdown st).1).2 = [] ∧
    (shutdown (shutdown st).1).1 = (shutdown st).1 := by
  have hflag : ({ st with shuttingDown := true } : ServerState)
      = ⟨st.bots, true⟩ := by
    cases st
    rfl
  have hrun : shutdown st = (⟨[], true⟩, st.bots.flatMap releasesOf) := by
    unfold shutdown
    rw [hflag, shutdown_run st.bots ⟨st.bots, true⟩ rfl hnd]
  refine ⟨?_, ?_, ?_, ?_⟩
  · rw [hrun]
    exact ⟨rfl, rfl⟩
  · intro id e hmem
    rw [hrun]
    exact count_releases_mem st.bots id e hnd hmem
  · rw [hrun]
    rfl
  · rw [hrun]
    rfl

/-- C9 witness: a server owning two bots, one with its socket already
closed, is emptied by shutdown with exactly one world release each, one
socket release for the open socket and none for the closed one, and a
second shutdown is a no-op. -/
theorem claim9_shutdown_idempotent_witness :
    ((shutdown ⟨[("bot_0", ⟨false⟩), ("bot_1", ⟨true⟩)], false⟩).1.bots = []) ∧
    ((shutdown ⟨[("bot_0", ⟨false⟩), ("bot_1", ⟨true⟩)], false⟩).2.count
        (Release.world "bot_0") = 1) ∧
    ((shutdown ⟨[("bot_0", ⟨false⟩), ("bot_1", ⟨true⟩)], false⟩).2.count
        (Release.socket "bot_0") = 1) ∧
    ((shutdown ⟨[("bot_0", ⟨false⟩), ("bot_1", ⟨true⟩)], false⟩).2.count
        (Release.socket "bot_1") = 0) ∧
    ((shutdown (shutdown ⟨[("bot_0", ⟨false⟩), ("bot_1", ⟨true⟩)],
        false⟩).1).2 = []) := by
  have h := claim9_shutdown_idempotent
    ⟨[("bot_0", ⟨false⟩), ("bot_1", ⟨true⟩)], false⟩ (by decide)
  refine ⟨h.1.1, ?_, ?_, ?_, h.2.2.1⟩
  · exact (h.2.1 "bot_0" ⟨false⟩ (List.mem_cons_self _ _)).1
  · exact (h.2.1 "bot_0" ⟨false⟩ (List.mem_cons_self _ _)).2
  · exact (h.2.1 "bot_1" ⟨true⟩
      (List.mem_cons_of_mem _ (List.mem_cons_self _ _))).2

/-- C10: while the session passes the readiness check but both the
cached observation and a freshly built one are unavailable, get_state,
take_action and reset all answer status ok carrying the default
observation — position (0,0,0), yaw 0, pitch 0, zero inventory, no tree
visible, no closest log — never a null state. -/
theorem claim10_default_observation (st : SessionState) (oc : PrimOutcome)
    (rOk : Bool) (q : ℚ)
    (hready : st.ready = true) (hcur : st.currentState = none)
    (hfresh : st.fresh = none) :
    (handleCommand st Command.get_state oc rOk).1
      = { baseResponse "ok" with state := some defaultObservation } ∧
    ((handleCommand st (Command.take_action q) oc rOk).1.status = "ok" ∧
      (handleCommand st (Command.take_action q) oc rOk).1.next_state
        = some defaultObservation) ∧
    (handleCommand st Command.reset oc rOk).1
      = { baseResponse "ok" with state := some defaultObservation } ∧
    defaultObservation
      = { posX := 0, posY := 0, posZ := 0, yaw := 0, pitch := 0,
          inventory_logs := 0, tree_visible := false, closest_log := none } := by
  refine ⟨?_, ⟨?_, ?_⟩, ?_, rfl⟩ <;>
    simp [handleCommand, hready, hcur, hfresh, executeAction, baseResponse,
      Option.orElse]

/-- C2 (amended): shareKnowledge merges the agents' tables into a table
whose key set is the union of the agents' key sets and whose entry at
every (key, slot) is the maximum over zero and the values of all agents
holding that key (the merged vector starts from Array(5).fill(0), so
all-negative slots clamp to 0 — the original claim's pure maximum over
the agents fails, see the counterexample); merging two tables is
commutative and merging a duplicated table adds nothing, and with at
least two bots every participating agent's table becomes the merged
table. -/
theorem claim2_merge_tables :
    (∀ (ts : List QTable) (s : String),
      ((mergeTables ts) s).isSome ↔ ∃ t ∈ ts, (t s).isSome) ∧
    (∀ (ts : List QTable), (∀ t ∈ ts, WFTable t) →
      ∀ (s : String) (a : ℕ), a < 5 →
        slotD (mergeTables ts) s a
          = ((ts.filterMap (fun t => t s)).map (fun v => v.getD a 0)).foldl
              max 0) ∧
    (∀ (a b : QTable), WFTable a → WFTable b → ∀ s : String,
      mergeTables [a, b] s = mergeTables [b, a] s) ∧
    (∀ (a : QTable), WFTable a → ∀ s : String,
      mergeTables [a, a] s = mergeTables [a] s) ∧
    (∀ (ts : List QTable), 2 ≤ ts.length →
      ∀ t ∈ shareKnowledge ts, t = mergeTables ts) := by
  refine ⟨?_, ?_, ?_, ?_, ?_⟩
  · intro ts s
    unfold mergeTables
    rw [foldl_mergeInto_isSome]
    simp [emptyTable]
  · intro ts hwf s a ha
    unfold mergeTables
    rw [foldl_mergeInto_slotD ts emptyTable s a ha emptyTable_WF hwf, slotD_empty]
  · intro a b hwa hwb s
    show mergeInto (mergeInto emptyTable a) b s
      = mergeInto (mergeInto emptyTable b) a s
    cases hA : a s with
    | none =>
      cases hB : b s with
      | none =>
        rw [mergeInto_of_none _ _ _ hB, mergeInto_of_none _ _ _ hA,
          mergeInto_of_none _ _ _ hA, mergeInto_of_none _ _ _ hB]
      | some vb =>
        rw [mergeInto_of_some _ _ _ _ hB, mergeInto_of_none _ _ _ hA,
          mergeInto_of_none _ _ _ hA, mergeInto_of_some _ _ _ _ hB]
    | some va =>
      cases hB : b s with
      | none =>
        rw [mergeInto_of_none _ _ _ hB, mergeInto_of_some _ _ _ _ hA,
          mergeInto_of_some _ _ _ _ hA, mergeInto_of_none _ _ _ hB]
      | some vb =>
        rw [mergeInto_of_some _ _ _ _ hB, mergeInto_of_some _ _ _ _ hA,
          mergeInto_of_some _ _ _ _ hA, mergeInto_of_some _ _ _ _ hB]
        show some (List.zipWith max
            (List.zipWith max (List.replicate 5 0) va) vb)
          = some (List.zipWith max
            (List.zipWith max (List.replicate 5 0) vb) va)
        rw [zipWith_max_zero_comm va vb (hwa s va hA) (hwb s vb hB)]
  · intro a hwa s
    show mergeInto (mergeInto emptyTable a) a s = mergeInto emptyTable a s
    cases hA : a s with
    | none =>
      rw [mergeInto_of_none _ _ _ hA, mergeInto_of_none _ _ _ hA]
    | some va =>
      rw [mergeInto_of_some _ _ _ _ hA, mergeInto_of_some _ _ _ _ hA]
      show some (List.zipWith max
          (List.zipWith max (List.replicate 5 0) va) va)
        = some (List.zipWith max (List.replicate 5 0) va)
      rw [zipWith_max_zero_idem va (hwa s va hA)]
  · intro ts h2 t ht
    unfold shareKnowledge at ht
    rw [if_neg (by omega)] at ht
    rcases List.mem_map.mp ht with ⟨x, _, hx⟩
    exact hx.symm

/-- C2 witness: two concrete agents holding the same key. The merge is
symmetric in the agents, the key survives, after shareKnowledge both
agents carry the merged table, and the slot holding -2 and -1 merges to
0 because of the zero seed. -/
theorem claim2_merge_tables_witness :
    (mergeTables [fun s => if s = "k" then some [1, -2, 3, 0, 5] else none,
        fun s => if s = "k" then some [2, -1, 0, 0, 4] else none] "k"
      = mergeTables [fun s => if s = "k" then some [2, -1, 0, 0, 4] else none,
        fun s => if s = "k" then some [1, -2, 3, 0, 5] else none] "k") ∧
    ((mergeTables [fun s => if s = "k" then some [1, -2, 3, 0, 5] else none,
        fun s => if s = "k" then some [2, -1, 0, 0, 4] else none] "k").isSome) ∧
    (slotD (mergeTables [fun s => if s = "k" then some [1, -2, 3, 0, 5] else none,
        fun s => if s = "k" then some [2, -1, 0, 0, 4] else none]) "k" 1 = 0) ∧
    (∀ t ∈ shareKnowledge
        [fun s => if s = "k" then some [1, -2, 3, 0, 5] else none,
          fun s => if s = "k" then some [2, -1, 0, 0, 4] else none],
      t = mergeTables
        [fun s => if s = "k" then some [1, -2, 3, 0, 5] else none,
          fun s => if s = "k" then some [2, -1, 0, 0, 4] else none]) := by
  have hwA : WFTable (fun s => if s = "k" then some [1, -2, 3, 0, 5] else none) := by
    intro k v hv
    have hv2 : (if k = "k" then some [1, -2, 3, 0, 5] else none) = some v := hv
    by_cases hk : k = "k"
    · rw [if_pos hk] at hv2
      cases hv2
      rfl
    · rw [if_neg hk] at hv2
      cases hv2
  have hwB : WFTable (fun s => if s = "k" then some [2, -1, 0, 0, 4] else none) := by
    intro k v hv
    have hv2 : (if k = "k" then some [2, -1, 0, 0, 4] else none) = some v := hv
    by_cases hk : k = "k"
    · rw [if_pos hk] at hv2
      cases hv2
      rfl
    · rw [if_neg hk] at hv2
      cases hv2
  refine ⟨claim2_merge_tables.2.2.1 _ _ hwA hwB "k", ?_, ?_, ?_⟩
  · rw [claim2_merge_tables.1]
    exact ⟨_, List.mem_cons_self _ _, rfl⟩
  · rw [claim2_merge_tables.2.1 _ (by
      intro t ht
      rcases List.mem_cons.mp ht with rfl | ht2
      · exact hwA
      rcases List.mem_cons.mp ht2 with rfl | ht3
      · exact hwB
      cases ht3) "k" 1 (by norm_num)]
    show List.foldl max 0 [(-2 : ℚ), -1] = 0
    rw [List.foldl_cons, List.foldl_cons, List.foldl_nil]
    rw [max_eq_left (by norm_num : (-2:ℚ) ≤ 0), max_eq_left (by norm_num : (-1:ℚ) ≤ 0)]
  · exact claim2_merge_tables.2.2.2.2 _ (by simp)

/-- C2 counterexample: two agents both hold key k with value -1 in every
slot; the maximum over the agents holding the key is -1, yet the merged
slot reads 0 because the merge seeds every slot with
Array(5).fill(0) before taking maxima. -/
theorem claim2_merge_tables_counterexample :
    ((fun s => if s = "k" then some [-1, -1, -1, -1, -1] else none) : QTable) "k"
      = some [-1, -1, -1, -1, -1] ∧
    slotD (mergeTables
      [fun s => if s = "k" then some [-1, -1, -1, -1, -1] else none,
        fun s => if s = "k" then some [-1, -1, -1, -1, -1] else none]) "k" 0 = 0 ∧
    ¬(slotD (mergeTables
      [fun s => if s = "k" then some [-1, -1, -1, -1, -1] else none,
        fun s => if s = "k" then some [-1, -1, -1, -1, -1] else none]) "k" 0
        = -1) := by
  have h : slotD (mergeTables
      [fun s => if s = "k" then some [-1, -1, -1, -1, -1] else none,
        fun s => if s = "k" then some [-1, -1, -1, -1, -1] else none]) "k" 0
      = max (max 0 (-1 : ℚ)) (-1) := rfl
  refine ⟨if_pos rfl, ?_, ?_⟩
  · rw [h, max_eq_left (by norm_num : (-1:ℚ) ≤ 0),
      max_eq_left (by norm_num : (-1:ℚ) ≤ 0)]
  · rw [h, max_eq_left (by norm_num : (-1:ℚ) ≤ 0),
      max_eq_left (by norm_num : (-1:ℚ) ≤ 0)]
    norm_num

/-- C5: getStateKey buckets the distance with thresholds 3 and 6 and the
relative bearing with quadrant boundaries at -45, 45, -135 and 135
degrees; an observation without a visible target maps to the all-none
key. The relative bearing rel is the bearing-to-target minus the yaw,
here fed in as angleToLog = yaw + rel, and the stated ranges keep it
inside the band where the normalization loops are the identity. -/
theorem claim5_state_key (o : Observation) (lg : LogInfo) (rel : ℚ)
    (hv : o.tree_visible = true) (hc : o.closest_log = some lg) :
    (lg.distance < 3 → -45 < rel → rel < 45 →
      getStateKey o (o.yaw + rel) = "log_visible_close_front") ∧
    (3 ≤ lg.distance → lg.distance < 6 → -45 < rel → rel < 45 →
      getStateKey o (o.yaw + rel) = "log_visible_medium_front") ∧
    (6 ≤ lg.distance → -45 < rel → rel < 45 →
      getStateKey o (o.yaw + rel) = "log_visible_far_front") ∧
    (lg.distance < 3 → 45 ≤ rel → rel < 135 →
      getStateKey o (o.yaw + rel) = "log_visible_close_right") ∧
    (lg.distance < 3 → -135 < rel → rel ≤ -45 →
      getStateKey o (o.yaw + rel) = "log_visible_close_left") ∧
    (lg.distance < 3 → 135 ≤ rel → rel ≤ 180 →
      getStateKey o (o.yaw + rel) = "log_visible_close_behind") ∧
    (lg.distance < 3 → -180 ≤ rel → rel ≤ -135 →
      getStateKey o (o.yaw + rel) = "log_visible_close_behind") ∧
    (∀ (o2 : Observation) (ang : ℚ), o2.tree_visible = false →
      getStateKey o2 ang = "log_none_none_none") := by
  have harg : o.yaw + rel - o.yaw = rel := by ring
  have hkey : ∀ hr1 : -180 ≤ rel, ∀ hr2 : rel ≤ 180,
      getStateKey o (o.yaw + rel) =
        "log_visible_" ++
          (if lg.distance < 3 then "close"
           else if lg.distance < 6 then "medium" else "far")
        ++ "_" ++ directionOf rel := by
    intro hr1 hr2
    rw [getStateKey_visible o lg _ hv hc, harg, normalizeAngle_of_mem rel hr1 hr2]
  refine ⟨?_, ?_, ?_, ?_, ?_, ?_, ?_, ?_⟩
  · intro hd h1 h2
    rw [hkey (by linarith) (by linarith), if_pos hd]
    unfold directionOf
    rw [if_pos ⟨h1, h2⟩]
    rfl
  · intro hd3 hd6 h1 h2
    rw [hkey (by linarith) (by linarith), if_neg (not_lt.mpr hd3), if_pos hd6]
    unfold directionOf
    rw [if_pos ⟨h1, h2⟩]
    rfl
  · intro hd h1 h2
    rw [hkey (by linarith) (by linarith), if_neg (by linarith), if_neg (by linarith)]
    unfold directionOf
    rw [if_pos ⟨h1, h2⟩]
    rfl
  · intro hd h1 h2
    rw [hkey (by linarith) (by linarith), if_pos hd]
    unfold directionOf
    rw [if_neg (by rintro ⟨ha, hb⟩; linarith), if_pos ⟨h1, h2⟩]
    rfl
  · intro hd h1 h2
    rw [hkey (by linarith) (by linarith), if_pos hd]
    unfold directionOf
    rw [if_neg (by rintro ⟨ha, hb⟩; linarith),
      if_neg (by rintro ⟨ha, hb⟩; linarith), if_pos ⟨h2, h1⟩]
    rfl
  · intro hd h1 h2
    rw [hkey (by linarith) (by linarith), if_pos hd]
    unfold directionOf
    rw [if_neg (by rintro ⟨ha, hb⟩; linarith),
      if_neg (by rintro ⟨ha, hb⟩; linarith),
      if_neg (by rintro ⟨ha, hb⟩; linarith)]
    rfl
  · intro hd h1 h2
    rw [hkey (by linarith) (by linarith), if_pos hd]
    unfold directionOf
    rw [if_neg (by rintro ⟨ha, hb⟩; linarith),
      if_neg (by rintro ⟨ha, hb⟩; linarith),
      if_neg (by rintro ⟨ha, hb⟩; linarith)]
    rfl
  · intro o2 ang h
    unfold getStateKey
    rw [h]

/-- C5 witness: the specification's boundary examples. Distance 2.9 is
close, 3.0 and 5.9 are medium, 6.0 is far; relative bearings 44 and -44
degrees are front, 46 is right, -46 is left, 179 is behind; an
observation with no visible tree keys to log_none_none_none. -/
theorem claim5_state_key_witness :
    getStateKey ⟨0, 64, 0, 0, 0, 0, true, some ⟨5, 64, 0, 29/10⟩⟩
      ((0:ℚ) + 44) = "log_visible_close_front" ∧
    getStateKey ⟨0, 64, 0, 0, 0, 0, true, some ⟨5, 64, 0, 3⟩⟩
      ((0:ℚ) + -44) = "log_visible_medium_front" ∧
    getStateKey ⟨0, 64, 0, 0, 0, 0, true, some ⟨5, 64, 0, 59/10⟩⟩
      ((0:ℚ) + 0) = "log_visible_medium_front" ∧
    getStateKey ⟨0, 64, 0, 0, 0, 0, true, some ⟨5, 64, 0, 6⟩⟩
      ((0:ℚ) + 0) = "log_visible_far_front" ∧
    getStateKey ⟨0, 64, 0, 0, 0, 0, true, some ⟨5, 64, 0, 1⟩⟩
      ((0:ℚ) + 46) = "log_visible_close_right" ∧
    getStateKey ⟨0, 64, 0, 0, 0, 0, true, some ⟨5, 64, 0, 1⟩⟩
      ((0:ℚ) + -46) = "log_visible_close_left" ∧
    getStateKey ⟨0, 64, 0, 0, 0, 0, true, some ⟨5, 64, 0, 1⟩⟩
      ((0:ℚ) + 179) = "log_visible_close_behind" ∧
    getStateKey ⟨0, 64, 0, 0, 0, 0, false, none⟩ 0 = "log_none_none_none" :=
  ⟨(claim5_state_key ⟨0, 64, 0, 0, 0, 0, true, some ⟨5, 64, 0, 29/10⟩⟩
      ⟨5, 64, 0, 29/10⟩ 44 rfl rfl).1 (by norm_num) (by norm_num) (by norm_num),
   (claim5_state_key ⟨0, 64, 0, 0, 0, 0, true, some ⟨5, 64, 0, 3⟩⟩
      ⟨5, 64, 0, 3⟩ (-44) rfl rfl).2.1 (by norm_num) (by norm_num)
      (by norm_num) (by norm_num),
   (claim5_state_key ⟨0, 64, 0, 0, 0, 0, true, some ⟨5, 64, 0, 59/10⟩⟩
      ⟨5, 64, 0, 59/10⟩ 0 rfl rfl).2.1 (by norm_num) (by norm_num)
      (by norm_num) (by norm_num),
   (claim5_state_key ⟨0, 64, 0, 0, 0, 0, true, some ⟨5, 64, 0, 6⟩⟩
      ⟨5, 64, 0, 6⟩ 0 rfl rfl).2.2.1 (by norm_num) (by norm_num) (by norm_num),
   (claim5_state_key ⟨0, 64, 0, 0, 0, 0, true, some ⟨5, 64, 0, 1⟩⟩
      ⟨5, 64, 0, 1⟩ 46 rfl rfl).2.2.2.1 (by norm_num) (by norm_num) (by norm_num),
   (claim5_state_key ⟨0, 64, 0, 0, 0, 0, true, some ⟨5, 64, 0, 1⟩⟩
      ⟨5, 64, 0, 1⟩ (-46) rfl rfl).2.2.2.2.1 (by norm_num) (by norm_num)
      (by norm_num),
   (claim5_state_key ⟨0, 64, 0, 0, 0, 0, true, some ⟨5, 64, 0, 1⟩⟩
      ⟨5, 64, 0, 1⟩ 179 rfl rfl).2.2.2.2.2.1 (by norm_num) (by norm_num)
      (by norm_num),
   (claim5_state_key ⟨0, 64, 0, 0, 0, 0, true, some ⟨5, 64, 0, 1⟩⟩
      ⟨5, 64, 0, 1⟩ 0 rfl rfl).2.2.2.2.2.2.2
      ⟨0, 64, 0, 0, 0, 0, false, none⟩ 0 rfl⟩

/-- C6: chooseAction explores when the first draw u is below epsilon,
returning Math.floor(u2 * actions_count) — a uniform index inside
[0, actions_count) for u2 in [0,1) — and leaving the agent untouched;
otherwise it materializes the state key's vector if absent and returns
the index of its maximum element, ties broken by the first (lowest)
index attaining the maximum. -/
theorem claim6_choose_action (ag : QAgent) (u u2 : ℚ) (o : Observation)
    (ang : ℚ) (hn : 0 < ag.actions_count)
    (hWF : ∀ k v, ag.q_table k = some v → v.length = ag.actions_count) :
    (u < ag.epsilon →
      chooseAction ag u u2 o ang = ((⌊u2 * (ag.actions_count : ℚ)⌋).toNat, ag) ∧
      (0 ≤ u2 → u2 < 1 →
        (⌊u2 * (ag.actions_count : ℚ)⌋).toNat < ag.actions_count)) ∧
    (¬(u < ag.epsilon) →
      ((chooseAction ag u u2 o ang).2.q_table
          = materializeKey ag.q_table (getStateKey o ang) ag.actions_count) ∧
      (ag.q_table (getStateKey o ang) = none →
        (chooseAction ag u u2 o ang).2.q_table (getStateKey o ang)
          = some (List.replicate ag.actions_count 0)) ∧
      (∀ v, (chooseAction ag u u2 o ang).2.q_table (getStateKey o ang) = some v →
        (chooseAction ag u u2 o ang).1 < v.length ∧
        v.getD (chooseAction ag u u2 o ang).1 0 = listMax v ∧
        (∀ j, j < v.length → v.getD j 0 ≤ listMax v) ∧
        (∀ j, j < (chooseAction ag u u2 o ang).1 → v.getD j 0 < listMax v))) := by
  constructor
  · intro h
    constructor
    · unfold chooseAction
      rw [if_pos h]
    · intro h0 h1
      have hcpos : (0:ℚ) < (ag.actions_count : ℚ) := by exact_mod_cast hn
      have hmul : u2 * (ag.actions_count : ℚ) < (ag.actions_count : ℚ) :=
        mul_lt_of_lt_one_left hcpos h1
      have hfl : ⌊u2 * (ag.actions_count : ℚ)⌋ < (ag.actions_count : ℤ) := by
        rw [Int.floor_lt]
        push_cast
        exact hmul
      omega
  · intro h
    have hch : chooseAction ag u u2 o ang =
        (((materializeKey ag.q_table (getStateKey o ang) ag.actions_count
              (getStateKey o ang)).getD []).indexOf
            (listMax ((materializeKey ag.q_table (getStateKey o ang)
              ag.actions_count (getStateKey o ang)).getD [])),
          { ag with q_table :=
              materializeKey ag.q_table (getStateKey o ang) ag.actions_count }) := by
      unfold chooseAction
      rw [if_neg h]
    refine ⟨by rw [hch], ?_, ?_⟩
    · intro habs
      rw [hch]
      show materializeKey ag.q_table (getStateKey o ang) ag.actions_count
          (getStateKey o ang) = _
      rw [materializeKey_self, habs]
      rfl
    · intro v hv
      rw [hch] at hv
      have hv2 : materializeKey ag.q_table (getStateKey o ang) ag.actions_count
          (getStateKey o ang) = some v := hv
      have hgetD : (materializeKey ag.q_table (getStateKey o ang)
          ag.actions_count (getStateKey o ang)).getD [] = v := by
        rw [hv2]
        rfl
      have hlenv : v.length = ag.actions_count := by
        rw [materializeKey_self] at hv2
        cases hqs : ag.q_table (getStateKey o ang) with
        | none =>
          rw [hqs] at hv2
          simp at hv2
          rw [← hv2]
          simp
        | some w =>
          rw [hqs] at hv2
          simp at hv2
          rw [← hv2]
          exact hWF _ w hqs
      have hne : v ≠ [] := by
        intro hnil
        rw [hnil] at hlenv
        simp at hlenv
        omega
      have hm : listMax v ∈ v := listMax_mem v hne
      have hidx : v.indexOf (listMax v) < v.length :=
        List.indexOf_lt_length.mpr hm
      have hfirst : (chooseAction ag u u2 o ang).1 = v.indexOf (listMax v) := by
        rw [hch]
        show ((materializeKey ag.q_table (getStateKey o ang) ag.actions_count
            (getStateKey o ang)).getD []).indexOf
          (listMax ((materializeKey ag.q_table (getStateKey o ang)
            ag.actions_count (getStateKey o ang)).getD [])) = _
        rw [hgetD]
      refine ⟨by rw [hfirst]; exact hidx, ?_, ?_, ?_⟩
      · rw [hfirst]
        rw [List.getD_eq_getElem?_getD, List.getElem?_eq_getElem hidx]
        exact List.getElem_indexOf hidx
      · intro j hj
        rw [List.getD_eq_getElem?_getD, List.getElem?_eq_getElem hj]
        exact le_listMax v _ (List.getElem_mem hj)
      · intro j hj
        rw [hfirst] at hj
        have hjlen : j < v.length := lt_trans hj hidx
        have hle : v.getD j 0 ≤ listMax v := by
          rw [List.getD_eq_getElem?_getD, List.getElem?_eq_getElem hjlen]
          exact le_listMax v _ (List.getElem_mem hjlen)
        exact lt_of_le_of_ne hle (getD_ne_of_lt_indexOf v (listMax v) j hj)

/-- C6 witness: a concrete agent with epsilon 1/2 and a stored vector
0, 2, 1, 2, 0 at the all-none key. An exploration draw u = 1/4 with
u2 = 1/2 yields the random index; an exploitation draw u = 3/4 yields
an index below 5 that attains the maximum with all earlier slots
strictly smaller. -/
theorem claim6_choose_action_witness :
    (chooseAction ⟨1/2, 1/10, 9/10,
        (fun s => if s = "log_none_none_none" then some [0, 2, 1, 2, 0] else none),
        5⟩ (1/4) (1/2) ⟨0, 64, 0, 0, 0, 0, false, none⟩ 0
      = ((⌊(1/2 : ℚ) * ((5:ℕ) : ℚ)⌋).toNat,
          ⟨1/2, 1/10, 9/10,
            (fun s => if s = "log_none_none_none" then some [0, 2, 1, 2, 0]
              else none), 5⟩)) ∧
    ((chooseAction ⟨1/2, 1/10, 9/10,
        (fun s => if s = "log_none_none_none" then some [0, 2, 1, 2, 0] else none),
        5⟩ (3/4) (1/2) ⟨0, 64, 0, 0, 0, 0, false, none⟩ 0).1 < 5 ∧
      [0, 2, 1, 2, 0].getD
        (chooseAction ⟨1/2, 1/10, 9/10,
          (fun s => if s = "log_none_none_none" then some [0, 2, 1, 2, 0] else none),
          5⟩ (3/4) (1/2) ⟨0, 64, 0, 0, 0, 0, false, none⟩ 0).1 0
        = listMax [0, 2, 1, 2, 0]) := by
  have hWF : ∀ k v, ((⟨1/2, 1/10, 9/10,
      (fun s => if s = "log_none_none_none" then some [0, 2, 1, 2, 0] else none),
      5⟩ : QAgent)).q_table k = some v → v.length = 5 := by
    intro k v hv
    have hv2 : (if k = "log_none_none_none" then some [0, 2, 1, 2, 0] else none)
        = some v := hv
    by_cases hk : k = "log_none_none_none"
    · rw [if_pos hk] at hv2
      cases hv2
      rfl
    · rw [if_neg hk] at hv2
      cases hv2
  constructor
  · exact ((claim6_choose_action _ (1/4) (1/2) ⟨0, 64, 0, 0, 0, 0, false, none⟩ 0
      (by norm_num) hWF).1 (show (1/4 : ℚ) < 1/2 by norm_num)).1
  · have hexp := (claim6_choose_action _ (3/4) (1/2)
      ⟨0, 64, 0, 0, 0, 0, false, none⟩ 0 (by norm_num) hWF).2
      (show ¬((3/4 : ℚ) < 1/2) by norm_num)
    have hv : (chooseAction ⟨1/2, 1/10, 9/10,
        (fun s => if s = "log_none_none_none" then some [0, 2, 1, 2, 0] else none),
        5⟩ (3/4) (1/2) ⟨0, 64, 0, 0, 0, 0, false, none⟩ 0).2.q_table
          (getStateKey ⟨0, 64, 0, 0, 0, 0, false, none⟩ 0)
        = some [0, 2, 1, 2, 0] := by
      rw [hexp.1, materializeKey_self]
      rfl
    have hmain := hexp.2.2 [0, 2, 1, 2, 0] hv
    exact ⟨hmain.1, hmain.2.1⟩

/-- C10 witness: a concrete ready session with no cached and no fresh
observation answers get_state with the default observation. -/
theorem claim10_default_observation_witness :
    (handleCommand ⟨true, none, none, true⟩ Command.get_state
        PrimOutcome.raises false).1
      = { baseResponse "ok" with state := some defaultObservation } :=
  (claim10_default_observation ⟨true, none, none, true⟩ PrimOutcome.raises
    false 0 rfl rfl rfl).1

end RLSpec
